import Mathlib

/-!
Shallow embedding of the kanisterio/errkit structured-error library.

The embedding follows the Go sources:
  errors.go (errkitError generation): New, Wrap, WithStack, WithCause,
    errkitError.Is, errkitError.Unwrap, errkitError.Error
  error_details.go: ToErrorDetails
  error_list.go: ErrorList.String, ErrorList.Error, ErrorList.Is, Append,
    ErrorList.MarshalJSON
  marshable_error.go: MarshalErrkitErrorToJSON, jsonError.UnmarshalJSON,
    jsonMarshable
  errors.go (older kerrors generation, kept in the repository): Error.Error
    with its JSON-encode-then-fallback behaviour.

Modelling conventions:
  - Go interface values of type error are modelled by the inductive GoErr;
    a nil error is Option.none at the API boundary.
  - The runtime stack capture (internal caller / getLocationFromStack) is an
    external collaborator; an errkit error stores the location triple that
    the captured stack denotes.
  - Go maps with string keys are modelled as association lists with unique
    keys; map update is the upsert function below.  Iteration order of a Go
    map is unspecified; the model uses first-insertion order.  The Go JSON
    encoder emits map keys sorted; the model keeps list order, which does
    not affect any data-level statement proved here.
  - JSON documents are modelled as the inductive Json below, so encoding
    produces a Json value rather than bytes.  String escaping is modelled by
    one quoting function used both for strconv.Quote and for the JSON
    encoder; the two agree on the characters exercised here (the HTML
    escaping of angle brackets done by encoding/json is not modelled).
  - json.Marshal failures (unsupported values such as channels inside the
    details map) are modelled by the GoVal.unserializable constructor and
    the Except monad.
-/

namespace Errkit

/-- Call-site location triple produced by the external caller locator. -/
structure Location where
  function : String
  file : String
  line : Int
deriving DecidableEq, Repr

/-- Dynamically typed Go value, as stored in an ErrorDetails map and as
produced by decoding arbitrary JSON into the Go any type.  Numbers are
restricted to integers.  The unserializable constructor stands for values
rejected by json.Marshal (channels, functions). -/
inductive GoVal where
  | str (s : String)
  | int (n : Int)
  | boolV (b : Bool)
  | nullV
  | arrV (xs : List GoVal)
  | dmap (d : List (String × GoVal))
  | unserializable (desc : String)
deriving Repr

/-- Go error values relevant to this library: a plain comparable error
(errors.New or a foreign leaf error), an errkitError, or an ErrorList. -/
inductive GoErr where
  | base (msg : String)
  | errkit (msgErr : GoErr) (cause : Option GoErr) (details : List (String × GoVal)) (loc : Location)
  | list (errs : List GoErr)
deriving Repr

/-- JSON documents, as values. -/
inductive Json where
  | null
  | str (s : String)
  | num (n : Int)
  | boolJ (b : Bool)
  | arr (elems : List Json)
  | obj (fields : List (String × Json))
deriving Repr

/- Structural equality of GoVal values, modelling Go interface equality on
the comparable subset.  Mutual with the list and map variants because of the
nested occurrences. -/
mutual

def valEq : GoVal → GoVal → Bool
  | .str s, .str s' => s == s'
  | .int n, .int n' => n == n'
  | .boolV b, .boolV b' => b == b'
  | .nullV, .nullV => true
  | .arrV xs, .arrV xs' => valListEq xs xs'
  | .dmap d, .dmap d' => valMapEq d d'
  | .unserializable a, .unserializable a' => a == a'
  | _, _ => false

def valListEq : List GoVal → List GoVal → Bool
  | [], [] => true
  | x :: xs, y :: ys => valEq x y && valListEq xs ys
  | _, _ => false

def valMapEq : List (String × GoVal) → List (String × GoVal) → Bool
  | [], [] => true
  | (k, v) :: xs, (k', v') :: ys => k == k' && valEq v v' && valMapEq xs ys
  | _, _ => false

end

/- Structural equality of GoErr values.  Used by the model of the equality
test inside the standard errors.Is loop; on the comparable error kinds it
coincides with Go interface equality whenever the two sides are the same
runtime value, which is the only situation the theorems below rely on. -/
mutual

def errEq : GoErr → GoErr → Bool
  | .base m, .base m' => m == m'
  | .errkit i c d l, .errkit i' c' d' l' =>
    errEq i i' && errOptEq c c' && valMapEq d d' && decide (l = l')
  | .list es, .list es' => errListEq es es'
  | _, _ => false

def errOptEq : Option GoErr → Option GoErr → Bool
  | none, none => true
  | some e, some e' => errEq e e'
  | _, _ => false

def errListEq : List GoErr → List GoErr → Bool
  | [], [] => true
  | x :: xs, y :: ys => errEq x y && errListEq xs ys
  | _, _ => false

end

mutual

theorem valEq_refl : ∀ v : GoVal, valEq v v = true
  | .str _ => by simp [valEq]
  | .int _ => by simp [valEq]
  | .boolV _ => by simp [valEq]
  | .nullV => by simp [valEq]
  | .arrV xs => by simp [valEq, valListEq_refl xs]
  | .dmap d => by simp [valEq, valMapEq_refl d]
  | .unserializable _ => by simp [valEq]

theorem valListEq_refl : ∀ xs : List GoVal, valListEq xs xs = true
  | [] => by simp [valListEq]
  | x :: xs => by simp [valListEq, valEq_refl x, valListEq_refl xs]

theorem valMapEq_refl : ∀ d : List (String × GoVal), valMapEq d d = true
  | [] => by simp [valMapEq]
  | (k, v) :: xs => by simp [valMapEq, valEq_refl v, valMapEq_refl xs]

end

mutual

theorem errEq_refl : ∀ e : GoErr, errEq e e = true
  | .base _ => by simp [errEq]
  | .errkit i c d l => by
    simp [errEq, errEq_refl i, errOptEq_refl c, valMapEq_refl d]
  | .list es => by simp [errEq, errListEq_refl es]

theorem errOptEq_refl : ∀ c : Option GoErr, errOptEq c c = true
  | none => by simp [errOptEq]
  | some e => by simp [errOptEq, errEq_refl e]

theorem errListEq_refl : ∀ es : List GoErr, errListEq es es = true
  | [] => by simp [errListEq]
  | e :: es => by simp [errListEq, errEq_refl e, errListEq_refl es]

end

/-- Map update for a Go map modelled as an association list: replace the
value at an existing key in place, otherwise append the new binding. -/
def upsert {α : Type} (k : String) (v : α) : List (String × α) → List (String × α)
  | [] => [(k, v)]
  | (k', v') :: rest => if k = k' then (k, v) :: rest else (k', v') :: upsert k v rest

/-- Map lookup on an association list. -/
def lookupKey {α : Type} : List (String × α) → String → Option α
  | [], _ => none
  | (k', v) :: rest, k => if k = k' then some v else lookupKey rest k

/-- Keys of an association list are pairwise distinct, as in a real Go map. -/
def NodupKeys {α : Type} (l : List (String × α)) : Prop :=
  (l.map Prod.fst).Nodup

instance {α : Type} (l : List (String × α)) : Decidable (NodupKeys l) := by
  unfold NodupKeys; infer_instance

/-- Build a map from a list of bindings, later bindings overwriting earlier
ones, as repeated Go map assignment does. -/
def mapOfPairs {α : Type} (ps : List (String × α)) : List (String × α) :=
  ps.foldl (fun acc p => upsert p.1 p.2 acc) []

/- Default text rendering of a GoVal, modelling the percent-v verb of the
fmt package.  One divergence: fmt prints map keys sorted, while the model
prints the stored binding order; no theorem below evaluates the rendering
of a map value. -/
mutual

def renderVal : GoVal → String
  | .str s => s
  | .int n => toString n
  | .boolV b => if b then "true" else "false"
  | .nullV => "<nil>"
  | .arrV xs => "[" ++ String.intercalate " " (renderValList xs) ++ "]"
  | .dmap d => "map[" ++ String.intercalate " " (renderValMap d) ++ "]"
  | .unserializable desc => desc

def renderValList : List GoVal → List String
  | [] => []
  | x :: xs => renderVal x :: renderValList xs

def renderValMap : List (String × GoVal) → List String
  | [] => []
  | (k, v) :: rest => (k ++ ":" ++ renderVal v) :: renderValMap rest

end

/-- Key synthesized for a key/value pair whose key element is not a string:
the key itself when it is a string, otherwise BADKEY with the default text
rendering of the value (error_details.go, ToErrorDetails). -/
def keyOf : GoVal → String
  | .str s => s
  | v => "BADKEY:(" ++ renderVal v ++ ")"

/-- Walk a flat argument list two at a time into key/value pairs
(error_details.go, ToErrorDetails loop). -/
def kvPairs : List GoVal → List (String × GoVal)
  | [] => []
  | [_] => []
  | k :: v :: rest => (keyOf k, v) :: kvPairs rest

/-- Detects an argument list holding exactly one ErrorDetails map, the case
that ToErrorDetails copies instead of interpreting. -/
def isOneDetailMap : List GoVal → Bool
  | [GoVal.dmap _] => true
  | _ => false

/-- Model of ToErrorDetails (error_details.go): empty input gives the nil
map; a single ErrorDetails argument is copied binding by binding; otherwise
the list is padded with NOVAL when its length is odd and interpreted as
key/value pairs. -/
def ToErrorDetails (details : List GoVal) : List (String × GoVal) :=
  match details with
  | [] => []
  | [GoVal.dmap d] => mapOfPairs d
  | ds => mapOfPairs (kvPairs (if ds.length % 2 = 1 then ds ++ [GoVal.str "NOVAL"] else ds))

/-- Escape of one character inside a quoted Go or JSON string.  Both
strconv.Quote and the JSON encoder escape the backslash, the double quote
and the common control characters this way; the model uses this shared
subset (claims never exercise characters on which the two escapers differ,
such as angle brackets, which encoding/json additionally escapes). -/
def escChar (c : Char) : String :=
  if c = '\\' then "\\\\"
  else if c = '\"' then "\\\""
  else if c = '\n' then "\\n"
  else if c = '\t' then "\\t"
  else if c = '\r' then "\\r"
  else String.singleton c

/-- Quoted string form, modelling strconv.Quote and the JSON string encoder
on their shared subset. -/
def goQuote (s : String) : String :=
  "\"" ++ String.join (s.toList.map escChar) ++ "\""

/- Text form of an error value, modelling the Error methods:
   - a plain error returns its message;
   - errkitError.Error (errors.go) returns the embedded message text, with
     the cause text appended after a colon when a cause is present;
   - ErrorList.Error = ErrorList.String (error_list.go) renders a JSON-style
     array of the quoted member texts. -/
mutual

def errText : GoErr → String
  | .base msg => msg
  | .errkit msgErr cause _ _ =>
    match cause with
    | none => errText msgErr
    | some c => errText msgErr ++ ": " ++ errText c
  | .list es => "[" ++ String.intercalate "," (errTextList es) ++ "]"

def errTextList : List GoErr → List String
  | [] => []
  | e :: es => goQuote (errText e) :: errTextList es

end

/-- Message of an error: the errkitError.Message method returns the text of
the embedded message error; for other error kinds the message coincides
with the text form. -/
def goMessage : GoErr → String
  | .base msg => msg
  | .errkit msgErr _ _ _ => errText msgErr
  | .list es => errText (.list es)

/-- Model of errors.Unwrap restricted to one error value: only errkitError
has an Unwrap method, returning its cause field; plain errors and
ErrorList have none. -/
def goUnwrap : GoErr → Option GoErr
  | .errkit _ cause _ _ => cause
  | _ => none

/-- Model of the errors.Unwrap alias exported by the package: nil in, nil
out, otherwise the Unwrap method result when the dynamic type has one. -/
def Unwrap (err : Option GoErr) : Option GoErr :=
  err.bind goUnwrap

/-- Comparability of the dynamic type of an error value: pointer and struct
shaped errors are comparable, the slice-shaped ErrorList is not.  The
standard errors.Is only performs the equality test when the target is
comparable. -/
def goComparable : GoErr → Bool
  | .list _ => false
  | _ => true

/- Model of errors.Is on non-nil error values: the loop performs the
equality test (guarded by comparability of the target), then the custom Is
method of the dynamic type, then follows Unwrap.
  - errkitError.Is (errors.go) delegates to errors.Is on the embedded
    message error;
  - ErrorList.Is (error_list.go) scans the members with errors.Is;
  - plain errors have no Is method.
The equality test is modelled structurally; the theorems below only rely on
it where the two sides are one and the same value, where it agrees with Go
interface equality. -/
mutual

def goIsRec : GoErr → GoErr → Bool
  | .base m, t => goComparable t && errEq (.base m) t
  | .errkit inner cause d l, t =>
    (goComparable t && errEq (.errkit inner cause d l) t) ||
    goIsRec inner t ||
    (match cause with
     | some c => goIsRec c t
     | none => false)
  | .list es, t =>
    (goComparable t && errEq (.list es) t) ||
    goIsAny es t

def goIsAny : List GoErr → GoErr → Bool
  | [], _ => false
  | e :: es, t => goIsRec e t || goIsAny es t

end

/-- Model of the errors.Is alias exported by the package, with the nil
checks done before the main loop. -/
def Is (err target : Option GoErr) : Bool :=
  match err, target with
  | none, none => true
  | some e, some t => goIsRec e t
  | _, _ => false

/-- Fresh error construction, modelling New (errors.go): a new message
error, no cause, normalized details, the captured call-site location. -/
def New (message : String) (details : List GoVal) (loc : Location) : GoErr :=
  .errkit (.base message) none (ToErrorDetails details) loc

/-- Model of Wrap (errors.go): a new message error with the given error
stored as the cause, as-is. -/
def Wrap (err : Option GoErr) (message : String) (details : List GoVal) (loc : Location) : GoErr :=
  .errkit (.base message) err (ToErrorDetails details) loc

/-- Model of WithStack (errors.go): nil in, nil out; otherwise the given
error itself becomes the embedded message error of a fresh errkitError and
no cause is set. -/
def WithStack (err : Option GoErr) (details : List GoVal) (loc : Location) : Option GoErr :=
  match err with
  | none => none
  | some e => some (.errkit e none (ToErrorDetails details) loc)

/-- Model of WithCause (errors.go): nil base in, nil out; otherwise the
base error itself becomes the embedded message error and the supplied cause
is stored. -/
def WithCause (err cause : Option GoErr) (details : List GoVal) (loc : Location) : Option GoErr :=
  match err with
  | none => none
  | some e => some (.errkit e cause (ToErrorDetails details) loc)

/-- Tests whether the dynamic type of an error value is ErrorList, as the
type assertions in Append do. -/
def isList : GoErr → Bool
  | .list _ => true
  | _ => false

/-- Model of Append (error_list.go): nil operands are identities; two
ErrorLists concatenate; an ErrorList operand absorbs the other error at its
end; two plain errors form a fresh two-member list. -/
def Append (err1 err2 : Option GoErr) : Option GoErr :=
  match err1 with
  | none => err2
  | some e1 =>
    match err2 with
    | none => some e1
    | some e2 =>
      match e1, e2 with
      | .list l1, .list l2 => some (.list (l1 ++ l2))
      | .list l1, _ => some (.list (l1 ++ [e2]))
      | _, .list l2 => some (.list (l2 ++ [e1]))
      | _, _ => some (.list [e1, e2])

/-- Aggregate message of a marshalled ErrorList (error_list.go,
MarshalJSON): singular for one member, plural otherwise. -/
def listMessage (n : Nat) : String :=
  if n = 1 then "1 error has occurred" else toString n ++ " errors have occurred"

/- Model of json.Marshal on detail values: plain values map to their JSON
counterparts, maps to objects in stored binding order, and unsupported
values (channels, functions) make the whole encode fail, as encoding/json
does. -/
mutual

def marshalGoVal : GoVal → Except String Json
  | .str s => .ok (.str s)
  | .int n => .ok (.num n)
  | .boolV b => .ok (.boolJ b)
  | .nullV => .ok .null
  | .arrV xs =>
    match marshalValList xs with
    | .ok js => .ok (.arr js)
    | .error e => .error e
  | .dmap d =>
    match marshalValMap d with
    | .ok fs => .ok (.obj fs)
    | .error e => .error e
  | .unserializable desc => .error ("json: unsupported type: " ++ desc)

def marshalValList : List GoVal → Except String (List Json)
  | [] => .ok []
  | x :: xs =>
    match marshalGoVal x, marshalValList xs with
    | .ok j, .ok js => .ok (j :: js)
    | .error e, _ => .error e
    | _, .error e => .error e

def marshalValMap : List (String × GoVal) → Except String (List (String × Json))
  | [] => .ok []
  | (k, v) :: rest =>
    match marshalGoVal v, marshalValMap rest with
    | .ok j, .ok fs => .ok ((k, j) :: fs)
    | .error e, _ => .error e
    | _, .error e => .error e

end

/-- Optional JSON object field. -/
def maybeField (k : String) : Option Json → List (String × Json)
  | none => []
  | some j => [(k, j)]

/-- String field with the omitempty contract: absent when empty. -/
def omitStr (k s : String) : List (String × Json) :=
  maybeField k (if s = "" then none else some (.str s))

/-- Integer field with the omitempty contract: absent when zero. -/
def omitNum (k : String) (n : Int) : List (String × Json) :=
  maybeField k (if n = 0 then none else some (.num n))

/-- Object-valued field with the omitempty contract: absent when the map is
empty or nil. -/
def omitObjField (k : String) (fs : List (String × Json)) : List (String × Json) :=
  maybeField k (if fs.isEmpty then none else some (.obj fs))

/-- Fields of the serialized jsonError structure, in declaration order
(marshable_error.go): message, function, linenumber, file, details, all
omitempty, then the optional cause appended by the caller. -/
def errFields (message : String) (loc : Location) (ds : List (String × Json)) : List (String × Json) :=
  omitStr "message" message ++ omitStr "function" loc.function ++
    omitNum "linenumber" loc.line ++ omitStr "file" loc.file ++
    omitObjField "details" ds

/- Model of the JSON encoding of error values:
   - an errkitError encodes via MarshalErrkitErrorToJSON
     (marshable_error.go): its message, the location denoted by its stack,
     its details, and the cause, recursively for an errkitError cause and
     through jsonMarshable otherwise;
   - a plain error encodes through jsonMarshable as a leaf object holding
     only its message (with omitempty);
   - an ErrorList encodes via ErrorList.MarshalJSON (error_list.go): null
     when empty, otherwise an object with the aggregate message and each
     member encoded by this same dispatch.
The dispatch mirrors jsonMarshable: dynamic types with a MarshalJSON method
(errkitError, ErrorList) use it, all other errors degrade to the leaf
object form. -/
mutual

def marshalErr : GoErr → Except String Json
  | .base m => .ok (.obj (omitStr "message" m))
  | .errkit inner cause details loc =>
    match marshalValMap details with
    | .error e => .error e
    | .ok ds =>
      match cause with
      | none => .ok (.obj (errFields (errText inner) loc ds))
      | some c =>
        match marshalErr c with
        | .error e => .error e
        | .ok cj => .ok (.obj (errFields (errText inner) loc ds ++ [("cause", cj)]))
  | .list es =>
    match es with
    | [] => .ok .null
    | _ =>
      match marshalMembers es with
      | .error e => .error e
      | .ok js => .ok (.obj [("message", .str (listMessage es.length)), ("errors", .arr js)])

def marshalMembers : List GoErr → Except String (List Json)
  | [] => .ok []
  | e :: rest =>
    match marshalErr e, marshalMembers rest with
    | .ok j, .ok js => .ok (j :: js)
    | .error er, _ => .error er
    | _, .error er => .error er

end

/- Rendering of a JSON value to its wire string. -/
mutual

def renderJson : Json → String
  | .null => "null"
  | .str s => goQuote s
  | .num n => toString n
  | .boolJ b => if b then "true" else "false"
  | .arr xs => "[" ++ String.intercalate "," (renderJsonList xs) ++ "]"
  | .obj fs => "\x7b" ++ String.intercalate "," (renderJsonFields fs) ++ "\x7d"

def renderJsonList : List Json → List String
  | [] => []
  | x :: xs => renderJson x :: renderJsonList xs

def renderJsonFields : List (String × Json) → List String
  | [] => []
  | (k, v) :: rest => (goQuote k ++ ":" ++ renderJson v) :: renderJsonFields rest

end

/-- Modelled from the spec: the plain-text fallback formatter
(render.Render of the go-render dependency) is an external pass-through
collaborator; the spec only requires a human-readable, never-empty
rendering of the whole value.  The model renders the struct name around the
error text. -/
def fallbackRender (e : GoErr) : String :=
  "errkit.Error\x7b" ++ errText e ++ "\x7d"

/-- Model of the Error method of the older kerrors-generation Error type
(errors.go): the JSON encoding when it succeeds, otherwise the plain-text
fallback rendering. -/
def kerrErrorString (e : GoErr) : String :=
  match marshalErr e with
  | .ok j => renderJson j
  | .error _ => fallbackRender e

/- Read-only mirror structure produced by decoding (marshable_error.go,
jsonError with its UnmarshalJSON): the scalar fields, the decoded details
map, and the cause, which is either absent, a nested decoded jsonError, the
typed nil produced by a JSON null cause, or an arbitrary JSON value decoded
opaquely when the nested parse fails. -/
mutual

inductive JErr where
  | mk (message function file : String) (linenumber : Int)
       (details : List (String × GoVal)) (cause : JCause)

inductive JCause where
  | noCause
  | nested (j : JErr)
  | nestedNull
  | rawAny (v : GoVal)

end

/- Model of decoding an arbitrary JSON value into the Go any type: objects
become maps built by repeated assignment, numbers become integers in the
integer-valued universe of the model. -/
mutual

def decodeAny : Json → GoVal
  | .null => .nullV
  | .str s => .str s
  | .num n => .int n
  | .boolJ b => .boolV b
  | .arr xs => .arrV (decodeAnyList xs)
  | .obj fs => .dmap (mapOfPairs (decodeAnyMap fs))

def decodeAnyList : List Json → List GoVal
  | [] => []
  | x :: xs => decodeAny x :: decodeAnyList xs

def decodeAnyMap : List (String × Json) → List (String × GoVal)
  | [] => []
  | (k, v) :: rest => (k, decodeAny v) :: decodeAnyMap rest

end

/-- Decoding of a string-typed struct field: absent or null leaves the zero
value, a string is taken, any other value is a type mismatch. -/
def getStrField (fs : List (String × Json)) (k : String) : Except String String :=
  match lookupKey fs k with
  | none => .ok ""
  | some (.str s) => .ok s
  | some .null => .ok ""
  | some _ => .error ("json: cannot unmarshal field " ++ k)

/-- Decoding of an integer-typed struct field. -/
def getNumField (fs : List (String × Json)) (k : String) : Except String Int :=
  match lookupKey fs k with
  | none => .ok 0
  | some (.num n) => .ok n
  | some .null => .ok 0
  | some _ => .error ("json: cannot unmarshal field " ++ k)

/-- Decoding of the details field into an ErrorDetails map: each JSON value
decodes into the any universe; absent or null leaves the nil map. -/
def getDetailsField (fs : List (String × Json)) (k : String) : Except String (List (String × GoVal)) :=
  match lookupKey fs k with
  | none => .ok []
  | some .null => .ok []
  | some (.obj ds) => .ok (mapOfPairs (decodeAnyMap ds))
  | some _ => .error ("json: cannot unmarshal field " ++ k)

/- Model of jsonError.UnmarshalJSON (marshable_error.go): the input must
be an object; known fields decode by type with absent fields left at their
zero values and unknown fields ignored; a present cause is first decoded as
a nested jsonError, with a JSON null producing the typed nil pointer, and
on failure of the nested parse it falls back to an opaque any-decoded
value.  The cause walk takes the first binding named cause; the encoder
never emits duplicate keys, so the divergence from the last-wins rule of
the Go decoder on pathological duplicate-key documents is immaterial. -/
mutual

def decodeJsonError : Json → Except String JErr
  | .obj fs =>
    match getStrField fs "message", getStrField fs "function",
          getNumField fs "linenumber", getStrField fs "file",
          getDetailsField fs "details" with
    | .ok message, .ok function, .ok linenumber, .ok file, .ok details =>
      .ok (.mk message function file linenumber details (causeFromFields fs))
    | .error e, _, _, _, _ => .error e
    | _, .error e, _, _, _ => .error e
    | _, _, .error e, _, _ => .error e
    | _, _, _, .error e, _ => .error e
    | _, _, _, _, .error e => .error e
  | _ => .error "json: cannot unmarshal value into jsonError"

def causeFromFields : List (String × Json) → JCause
  | [] => .noCause
  | (k, v) :: rest =>
    if k = "cause" then
      match v with
      | .null => .nestedNull
      | c =>
        match decodeJsonError c with
        | .ok d => .nested d
        | .error _ => .rawAny (decodeAny c)
    else causeFromFields rest

end

/-- Leaf mirror value carrying only a message. -/
def mirrorLeaf (m : String) : JErr := .mk m "" "" 0 [] .noCause

/- Expected decoded mirror of a marshalled error value: an errkitError node
keeps its message, location, details and mirrored cause; a plain cause
becomes a leaf object carrying its text; an empty ErrorList marshals to
null and decodes to the typed nil; a nonempty ErrorList decodes to a leaf
carrying the aggregate message (its errors array is an ignored unknown
field). -/
mutual

def mirrorErr : GoErr → JErr
  | .base m => mirrorLeaf m
  | .errkit inner cause details loc =>
    .mk (errText inner) loc.function loc.file loc.line details (mirrorCause cause)
  | .list es => mirrorLeaf (listMessage es.length)

def mirrorCause : Option GoErr → JCause
  | none => .noCause
  | some (.base m) => .nested (mirrorLeaf m)
  | some (.errkit inner cause details loc) => .nested (mirrorErr (.errkit inner cause details loc))
  | some (.list []) => .nestedNull
  | some (.list (e :: es)) => .nested (mirrorLeaf (listMessage (e :: es).length))

end

/- Well-formedness of detail values: every map inside carries distinct
keys, as every value read out of a real Go map does. -/
mutual

def valWF : GoVal → Bool
  | .dmap d => decide (NodupKeys d) && valMapWF d
  | .arrV xs => valListWF xs
  | _ => true

def valListWF : List GoVal → Bool
  | [] => true
  | x :: xs => valWF x && valListWF xs

def valMapWF : List (String × GoVal) → Bool
  | [] => true
  | (_, v) :: rest => valWF v && valMapWF rest

end

/-- Well-formedness along the cause chain: every errkitError node on the
chain carries a details map with distinct keys and well-formed values. -/
def chainWF : GoErr → Bool
  | .errkit _ cause details _ =>
    (decide (NodupKeys details) && valMapWF details) &&
      (match cause with
       | some c => chainWF c
       | none => true)
  | _ => true

section MapLemmas

variable {α : Type}

theorem lookupKey_upsert_self (k : String) (v : α) :
    ∀ l : List (String × α), lookupKey (upsert k v l) k = some v := by
  intro l
  induction l with
  | nil => simp [upsert, lookupKey]
  | cons p rest ih =>
    obtain ⟨k', v'⟩ := p
    unfold upsert
    by_cases hk : k = k'
    · rw [if_pos hk]; simp [lookupKey]
    · rw [if_neg hk]; simp [lookupKey, if_neg hk, ih]

theorem upsert_notMem (k : String) (v : α) :
    ∀ l : List (String × α), k ∉ l.map Prod.fst → upsert k v l = l ++ [(k, v)] := by
  intro l
  induction l with
  | nil => simp [upsert]
  | cons p rest ih =>
    obtain ⟨k', v'⟩ := p
    intro h
    simp only [List.map_cons, List.mem_cons] at h
    push_neg at h
    unfold upsert
    rw [if_neg h.1]
    simp [ih h.2]

theorem mem_keys_upsert (k a : String) (v : α) :
    ∀ l : List (String × α),
      a ∈ (upsert k v l).map Prod.fst → a ∈ l.map Prod.fst ∨ a = k := by
  intro l
  induction l with
  | nil => simp [upsert]
  | cons p rest ih =>
    obtain ⟨k', v'⟩ := p
    unfold upsert
    by_cases hk : k = k'
    · rw [if_pos hk]
      simp only [List.map_cons, List.mem_cons]
      rintro (h | h)
      · exact Or.inr h
      · exact Or.inl (Or.inr h)
    · rw [if_neg hk]
      simp only [List.map_cons, List.mem_cons]
      rintro (h | h)
      · exact Or.inl (Or.inl h)
      · rcases ih h with h' | h'
        · exact Or.inl (Or.inr h')
        · exact Or.inr h'

theorem nodupKeys_upsert (k : String) (v : α) :
    ∀ l : List (String × α), NodupKeys l → NodupKeys (upsert k v l) := by
  intro l
  induction l with
  | nil => intro _; simp [upsert, NodupKeys]
  | cons p rest ih =>
    obtain ⟨k', v'⟩ := p
    intro h
    unfold NodupKeys at h
    simp only [List.map_cons, List.nodup_cons] at h
    unfold upsert
    by_cases hk : k = k'
    · rw [if_pos hk]
      unfold NodupKeys
      simp only [List.map_cons, List.nodup_cons]
      exact ⟨hk ▸ h.1, h.2⟩
    · rw [if_neg hk]
      unfold NodupKeys
      simp only [List.map_cons, List.nodup_cons]
      constructor
      · intro hmem
        rcases mem_keys_upsert k k' v rest hmem with h' | h'
        · exact h.1 h'
        · exact hk h'.symm
      · exact ih h.2

theorem foldl_upsert_nodup :
    ∀ (ps acc : List (String × α)), NodupKeys acc →
      NodupKeys (ps.foldl (fun acc p => upsert p.1 p.2 acc) acc) := by
  intro ps
  induction ps with
  | nil => intro acc h; simpa using h
  | cons p rest ih =>
    intro acc h
    simp only [List.foldl_cons]
    exact ih _ (nodupKeys_upsert p.1 p.2 acc h)

/-- Every map built by repeated assignment has distinct keys. -/
theorem mapOfPairs_nodupKeys (ps : List (String × α)) : NodupKeys (mapOfPairs ps) :=
  foldl_upsert_nodup ps [] (by simp [NodupKeys])

theorem foldl_upsert_of_nodup :
    ∀ (l acc : List (String × α)), NodupKeys (acc ++ l) →
      l.foldl (fun acc p => upsert p.1 p.2 acc) acc = acc ++ l := by
  intro l
  induction l with
  | nil => intro acc _; simp
  | cons p rest ih =>
    intro acc h
    obtain ⟨k, v⟩ := p
    have hkeys : ¬ k ∈ acc.map Prod.fst := by
      unfold NodupKeys at h
      simp only [List.map_append, List.map_cons] at h
      rcases List.nodup_append.mp h with ⟨_, _, hdisj⟩
      intro hmem
      exact hdisj hmem (by simp)
    simp only [List.foldl_cons]
    rw [upsert_notMem k v acc hkeys]
    have hre : (acc ++ [(k, v)]) ++ rest = acc ++ (k, v) :: rest := by simp
    rw [ih (acc ++ [(k, v)]) (by rw [hre]; exact h), hre]

/-- Copying a map with distinct keys binding by binding reproduces it. -/
theorem mapOfPairs_of_nodup (l : List (String × α)) (h : NodupKeys l) :
    mapOfPairs l = l := by
  unfold mapOfPairs
  simpa using foldl_upsert_of_nodup l [] (by simpa using h)

/-- The last binding of the built map wins for its key. -/
theorem lookupKey_foldl_upsert_last :
    ∀ (ps : List (String × α)) (acc : List (String × α)) (k : String) (v : α),
      ps.getLast? = some (k, v) →
      lookupKey (ps.foldl (fun acc p => upsert p.1 p.2 acc) acc) k = some v := by
  intro ps
  induction ps with
  | nil => intro acc k v h; simp at h
  | cons p rest ih =>
    intro acc k v h
    match rest, h with
    | [], h =>
      simp at h
      simp only [List.foldl_cons, List.foldl_nil]
      rw [h]
      exact lookupKey_upsert_self k v acc
    | q :: rest', h =>
      have h' : (q :: rest').getLast? = some (k, v) := by
        rwa [List.getLast?_cons_cons] at h
      simp only [List.foldl_cons]
      exact ih _ k v h'

end MapLemmas

/-- Normalization always yields a map with distinct keys. -/
theorem toErrorDetails_nodupKeys (ds : List GoVal) : NodupKeys (ToErrorDetails ds) := by
  unfold ToErrorDetails
  split
  · simp [NodupKeys]
  · exact mapOfPairs_nodupKeys _
  · exact mapOfPairs_nodupKeys _

/-- Normalization of a list that is neither empty nor a single DetailMap
walks the possibly padded key/value pairs. -/
theorem toErrorDetails_kv (ds : List GoVal) (hne : ds ≠ [])
    (hmap : isOneDetailMap ds = false) :
    ToErrorDetails ds =
      mapOfPairs (kvPairs (if ds.length % 2 = 1 then ds ++ [GoVal.str "NOVAL"] else ds)) := by
  unfold ToErrorDetails
  split
  · simp_all
  · simp [isOneDetailMap] at hmap
  · rfl

/-- The padded pair walk of an odd-length list ends with the synthetic
NOVAL binding for the key derived from the last element. -/
theorem kvPairs_getLast :
    ∀ (ds : List GoVal) (v : GoVal), ds.length % 2 = 1 → ds.getLast? = some v →
      (kvPairs (ds ++ [GoVal.str "NOVAL"])).getLast? = some (keyOf v, GoVal.str "NOVAL")
  | [], v => by simp
  | [x], v => by
    intro _ h
    simp at h
    subst h
    simp [kvPairs]
  | a :: b :: rest, v => by
    intro hlen hlast
    have hrest : rest.length % 2 = 1 := by
      simp [List.length_cons] at hlen
      omega
    have hlast' : rest.getLast? = some v := by
      rw [List.getLast?_cons_cons] at hlast
      cases rest with
      | nil => simp at hrest
      | cons c cs => rwa [List.getLast?_cons_cons] at hlast
    have ih := kvPairs_getLast rest v hrest hlast'
    simp only [List.cons_append, kvPairs]
    cases hk : kvPairs (rest ++ [GoVal.str "NOVAL"]) with
    | nil => rw [hk] at ih; simp at ih
    | cons q qs =>
      rw [hk] at ih
      rw [List.getLast?_cons_cons]
      exact ih

/-- C7 (confirmed): the detail normalizer is idempotent, and a single
already-normalized DetailMap argument is copied with equal content and no
further interpretation.  The defensive-copy aspect concerns aliasing of the
underlying Go map and has no observable content in a value model. -/
theorem c7_normalize_idempotent :
    (∀ ds : List GoVal,
       ToErrorDetails [GoVal.dmap (ToErrorDetails ds)] = ToErrorDetails ds) ∧
    (∀ m : List (String × GoVal), NodupKeys m → ToErrorDetails [GoVal.dmap m] = m) := by
  constructor
  · intro ds
    show mapOfPairs (ToErrorDetails ds) = ToErrorDetails ds
    exact mapOfPairs_of_nodup _ (toErrorDetails_nodupKeys ds)
  · intro m hm
    show mapOfPairs m = m
    exact mapOfPairs_of_nodup m hm

/-- Witness for C7 at a concrete already-normalized map. -/
theorem c7_normalize_idempotent_witness :
    ToErrorDetails [GoVal.dmap [("a", GoVal.str "b"), ("c", GoVal.int 7)]] =
      [("a", GoVal.str "b"), ("c", GoVal.int 7)] :=
  c7_normalize_idempotent.2 [("a", GoVal.str "b"), ("c", GoVal.int 7)] (by decide)

/-- C6 (confirmed): malformed detail lists degrade instead of failing: an
odd-length argument list is padded with the synthetic value NOVAL so the
key derived from the last element still gets an entry, and a pair with a
non-string key yields the BADKEY form built from the default rendering of
the key while keeping the value unchanged.  Totality is built in: the
normalizer is a total function. -/
theorem normalize_odd_last (ds : List GoVal) (v : GoVal) (hlen : ds.length % 2 = 1)
    (hmap : isOneDetailMap ds = false) (hlast : ds.getLast? = some v) :
    lookupKey (ToErrorDetails ds) (keyOf v) = some (GoVal.str "NOVAL") := by
  have hne : ds ≠ [] := by
    intro h
    subst h
    simp at hlen
  rw [toErrorDetails_kv ds hne hmap, if_pos hlen]
  exact lookupKey_foldl_upsert_last _ [] _ _ (kvPairs_getLast ds v hlen hlast)

theorem c6_normalize_degrades :
    (∀ (ds : List GoVal) (v : GoVal), ds.length % 2 = 1 → isOneDetailMap ds = false →
       ds.getLast? = some v →
       lookupKey (ToErrorDetails ds) (keyOf v) = some (GoVal.str "NOVAL")) ∧
    (∀ (k1 : String) (v1 : GoVal) (k2 : String),
       lookupKey (ToErrorDetails [GoVal.str k1, v1, GoVal.str k2]) k2 =
         some (GoVal.str "NOVAL")) ∧
    ToErrorDetails [GoVal.int 123, GoVal.int 456] = [("BADKEY:(123)", GoVal.int 456)] := by
  refine ⟨normalize_odd_last, ?_, rfl⟩
  intro k1 v1 k2
  have h := normalize_odd_last [GoVal.str k1, v1, GoVal.str k2] (GoVal.str k2)
    (by simp) (by simp [isOneDetailMap]) (by simp)
  simpa [keyOf] using h

/-- Witness for C6 at the concrete odd-length list holding one non-string
element. -/
theorem c6_normalize_degrades_witness :
    lookupKey (ToErrorDetails [GoVal.int 5]) (keyOf (GoVal.int 5)) =
      some (GoVal.str "NOVAL") :=
  c6_normalize_degrades.1 [GoVal.int 5] (GoVal.int 5) (by simp)
    (by simp [isOneDetailMap]) (by simp)

/-- C3 (corrected): counterexample to the call-order clause.  When the
first operand is a plain error and the second an ErrorList, Append returns
the list members first and the plain error last, not the operands in call
order as claimed. -/
theorem c3_append_counterexample :
    Append (some (.base "e")) (some (.list [.base "e1", .base "e2"])) =
      some (.list [.base "e1", .base "e2", .base "e"]) ∧
    Append (some (.base "e")) (some (.list [.base "e1", .base "e2"])) ≠
      some (.list [.base "e", .base "e1", .base "e2"]) := by
  refine ⟨rfl, ?_⟩
  intro h
  simp [Append] at h

/-- C3 (corrected, amended): Append treats nil as an identity; two plain
errors form the two-member list in call order; three appended plain errors
keep call order; a list first operand absorbs a plain second operand at its
end (call order); a plain first operand with a list second operand is
appended at the END of that list, so the members are the second operand
followed by the first; two lists concatenate first members first. -/
theorem c3_append_members :
    (∀ e, Append none e = e) ∧
    (∀ e, Append e none = e) ∧
    (∀ e1 e2, isList e1 = false → isList e2 = false →
       Append (some e1) (some e2) = some (.list [e1, e2])) ∧
    (∀ e1 e2 e3, isList e1 = false → isList e2 = false → isList e3 = false →
       Append (Append (some e1) (some e2)) (some e3) = some (.list [e1, e2, e3])) ∧
    (∀ l1 e2, isList e2 = false →
       Append (some (.list l1)) (some e2) = some (.list (l1 ++ [e2]))) ∧
    (∀ e1 l2, isList e1 = false →
       Append (some e1) (some (.list l2)) = some (.list (l2 ++ [e1]))) ∧
    (∀ l1 l2, Append (some (.list l1)) (some (.list l2)) = some (.list (l1 ++ l2))) := by
  refine ⟨?_, ?_, ?_, ?_, ?_, ?_, ?_⟩
  · intro e; cases e <;> rfl
  · intro e; cases e <;> rfl
  · intro e1 e2 h1 h2
    cases e1 <;> cases e2 <;> simp_all [Append, isList]
  · intro e1 e2 e3 h1 h2 h3
    cases e1 <;> cases e2 <;> cases e3 <;> simp_all [Append, isList]
  · intro l1 e2 h2
    cases e2 <;> simp_all [Append, isList]
  · intro e1 l2 h1
    cases e1 <;> simp_all [Append, isList]
  · intro l1 l2; rfl

/-- Witness for C3 at concrete plain errors and lists. -/
theorem c3_append_members_witness :
    Append (Append (some (.base "a")) (some (.base "b"))) (some (.base "c")) =
      some (.list [.base "a", .base "b", .base "c"]) :=
  c3_append_members.2.2.2.1 (.base "a") (.base "b") (.base "c") rfl rfl rfl

/-- C10 (confirmed): the JSON encoding of an ErrorList is null for the
empty list, uses the singular aggregate message for exactly one member,
and the plural count message only from two members on. -/
theorem c10_list_marshal_count :
    (marshalErr (.list []) = .ok Json.null) ∧
    (∀ e js, marshalMembers [e] = .ok js →
       marshalErr (.list [e]) =
         .ok (.obj [("message", .str "1 error has occurred"), ("errors", .arr js)])) ∧
    (∀ es js, 2 ≤ es.length → marshalMembers es = .ok js →
       marshalErr (.list es) =
         .ok (.obj [("message", .str (toString es.length ++ " errors have occurred")),
                    ("errors", .arr js)])) := by
  refine ⟨rfl, ?_, ?_⟩
  · intro e js h
    simp only [marshalErr, h, listMessage]
    rfl
  · intro es js hlen h
    match es, h with
    | a :: b :: rest, h =>
      have hne : (a :: b :: rest).length ≠ 1 := by simp
      simp only [marshalErr, h, listMessage, if_neg hne]

/-- Witness for C10 at concrete one- and two-member lists. -/
theorem c10_list_marshal_count_witness :
    marshalErr (.list [.base "x"]) =
      .ok (.obj [("message", .str "1 error has occurred"),
                 ("errors", .arr [.obj [("message", .str "x")]])]) :=
  c10_list_marshal_count.2.1 (.base "x") [.obj [("message", .str "x")]] rfl

theorem errTextList_map (es : List GoErr) :
    errTextList es = es.map fun m => goQuote (errText m) := by
  induction es with
  | nil => rfl
  | cons e es ih => simp [errTextList, ih]

theorem renderJsonList_strs (es : List GoErr) :
    renderJsonList (es.map fun m => Json.str (errText m)) =
      es.map fun m => goQuote (errText m) := by
  induction es with
  | nil => rfl
  | cons e es ih => simp [renderJsonList, renderJson, ih]

/-- C8 (confirmed): the text form of an ErrorList is exactly the rendering
of the flat JSON array of the quoted member texts, while its structured
encoding is the object shape with the aggregate message and the members
encoded through the opaque/nested dispatch. -/
theorem c8_list_string_vs_json :
    (∀ es, errText (.list es) =
       renderJson (.arr (es.map fun m => Json.str (errText m)))) ∧
    (∀ es js, 2 ≤ es.length → marshalMembers es = .ok js →
       marshalErr (.list es) =
         .ok (.obj [("message", .str (listMessage es.length)), ("errors", .arr js)])) := by
  constructor
  · intro es
    show "[" ++ String.intercalate "," (errTextList es) ++ "]" =
      "[" ++ String.intercalate "," (renderJsonList (es.map fun m => Json.str (errText m))) ++ "]"
    rw [errTextList_map, renderJsonList_strs]
  · intro es js hlen h
    match es, h with
    | a :: b :: rest, h =>
      simp only [marshalErr, h]

/-- Witness for C8 at a concrete two-member list. -/
theorem c8_list_string_vs_json_witness :
    marshalErr (.list [.base "msg1", .base "msg2"]) =
      .ok (.obj [("message", .str (listMessage 2)),
                 ("errors", .arr [.obj [("message", .str "msg1")],
                                  .obj [("message", .str "msg2")]])]) :=
  c8_list_string_vs_json.2 [.base "msg1", .base "msg2"]
    [.obj [("message", .str "msg1")], .obj [("message", .str "msg2")]]
    (by simp) rfl

/-- Every error value of comparable dynamic type matches itself under the
standard matching loop, through the guarded equality test. -/
theorem goIsRec_self (e : GoErr) (h : goComparable e = true) : goIsRec e e = true := by
  cases e with
  | base m =>
    unfold goIsRec
    rw [errEq_refl]
    rfl
  | errkit i c d l =>
    unfold goIsRec
    rw [errEq_refl]
    simp [goComparable]
  | list es => simp [goComparable] at h

/-- C1 (corrected): counterexample to the claimed cause preservation and
one-level message unwrap of WithStack.  For the errkitError shown, the
current implementation (errors.go of the errkitError generation) embeds
the whole error and sets no cause, so unwrap yields nil rather than the
original error, and the message of the result is the full two-level text
rather than the one-level message; the package tests (TestErrorsWithStack)
expect exactly this nil unwrap. -/
theorem c1_withStack_counterexample :
    Unwrap (WithStack (some (.errkit (.base "A") (some (.base "B")) []
        ⟨"f0", "file0.go:1", 1⟩)) [] ⟨"f1", "file1.go:2", 2⟩) = none ∧
    (WithStack (some (.errkit (.base "A") (some (.base "B")) []
        ⟨"f0", "file0.go:1", 1⟩)) [] ⟨"f1", "file1.go:2", 2⟩).map goMessage ≠
      some "A" := by
  refine ⟨rfl, ?_⟩
  intro h
  simp [WithStack, goMessage, errText, ToErrorDetails] at h

/-- C1 (corrected, amended): WithStack of nil is nil; otherwise the result
embeds the given error itself as its message error (so its message is the
full text of the given error, not unwrapped), carries the captured
call-site location and the normalized details, and sets no cause, so
unwrap of the result is nil while matching the original error still
succeeds for every comparable error value. -/
theorem c1_withStack_behaviour :
    (∀ details loc, WithStack none details loc = none) ∧
    (∀ e details loc,
       WithStack (some e) details loc =
         some (.errkit e none (ToErrorDetails details) loc) ∧
       Unwrap (WithStack (some e) details loc) = none ∧
       (WithStack (some e) details loc).map goMessage = some (errText e) ∧
       (goComparable e = true → Is (WithStack (some e) details loc) (some e) = true)) := by
  refine ⟨fun _ _ => rfl, ?_⟩
  intro e details loc
  refine ⟨rfl, rfl, rfl, ?_⟩
  intro h
  show goIsRec (.errkit e none (ToErrorDetails details) loc) e = true
  unfold goIsRec
  rw [goIsRec_self e h]
  simp

/-- Witness for C1 at a concrete comparable error. -/
theorem c1_withStack_behaviour_witness :
    Is (WithStack (some (.base "well known")) [] ⟨"f", "f.go:3", 3⟩)
      (some (.base "well known")) = true :=
  ((c1_withStack_behaviour.2 (.base "well known") [] ⟨"f", "f.go:3", 3⟩).2.2.2) rfl

/-- C2 (corrected): counterexample to matching an arbitrary supplied
cause.  An ErrorList cause has a non-comparable dynamic type and no Unwrap
method, and its members do not match the list itself, so the standard
matching loop cannot match it: Is of the WithCause result against the very
cause that was stored returns false. -/
theorem c2_withCause_counterexample :
    Unwrap (WithCause (some (.base "sentinel")) (some (.list [.base "x"])) []
        ⟨"f", "f.go:1", 1⟩) = some (.list [.base "x"]) ∧
    Is (WithCause (some (.base "sentinel")) (some (.list [.base "x"])) []
        ⟨"f", "f.go:1", 1⟩) (some (.list [.base "x"])) = false := ⟨rfl, rfl⟩

/-- C2 (corrected, amended): WithCause of a nil base is nil; otherwise the
result embeds the base itself (so its message is the full base text, which
for a sentinel base is its message), unwrap yields the supplied cause, the
base is matched whenever its dynamic type is comparable, and the supplied
cause is matched whenever its dynamic type is comparable — an ErrorList
cause is the exception. -/
theorem c2_withCause_behaviour :
    (∀ cause details loc, WithCause none cause details loc = none) ∧
    (∀ b cause details loc,
       WithCause (some b) cause details loc =
         some (.errkit b cause (ToErrorDetails details) loc) ∧
       (WithCause (some b) cause details loc).map goMessage = some (errText b) ∧
       Unwrap (WithCause (some b) cause details loc) = cause ∧
       (goComparable b = true →
          Is (WithCause (some b) cause details loc) (some b) = true) ∧
       (∀ c, cause = some c → goComparable c = true →
          Is (WithCause (some b) cause details loc) (some c) = true)) := by
  refine ⟨fun _ _ _ => rfl, ?_⟩
  intro b cause details loc
  refine ⟨rfl, rfl, rfl, ?_, ?_⟩
  · intro h
    show goIsRec (.errkit b cause (ToErrorDetails details) loc) b = true
    unfold goIsRec
    rw [goIsRec_self b h]
    simp
  · intro c hc h
    subst hc
    show goIsRec (.errkit b (some c) (ToErrorDetails details) loc) c = true
    unfold goIsRec
    simp [goIsRec_self c h]

/-- Witness for C2 at a concrete sentinel base and plain cause. -/
theorem c2_withCause_behaviour_witness :
    Is (WithCause (some (.base "not found")) (some (.base "disk full")) []
      ⟨"g", "g.go:9", 9⟩) (some (.base "not found")) = true ∧
    Is (WithCause (some (.base "not found")) (some (.base "disk full")) []
      ⟨"g", "g.go:9", 9⟩) (some (.base "disk full")) = true :=
  ⟨((c2_withCause_behaviour.2 (.base "not found") (some (.base "disk full")) []
      ⟨"g", "g.go:9", 9⟩).2.2.2.1) rfl,
   ((c2_withCause_behaviour.2 (.base "not found") (some (.base "disk full")) []
      ⟨"g", "g.go:9", 9⟩).2.2.2.2) (.base "disk full") rfl rfl⟩

/-- C5 (corrected): counterexample to matching an arbitrary wrapped error.
Wrapping an ErrorList keeps it as the cause and unwrap still yields it,
but the standard matching loop cannot match the list itself, for the same
comparability reason as the WithCause case. -/
theorem c5_wrap_counterexample :
    Unwrap (some (Wrap (some (.list [.base "x"])) "m" [] ⟨"f", "f.go:1", 1⟩)) =
      some (.list [.base "x"]) ∧
    Is (some (Wrap (some (.list [.base "x"])) "m" [] ⟨"f", "f.go:1", 1⟩))
      (some (.list [.base "x"])) = false := ⟨rfl, rfl⟩

/-- C5 (corrected, amended): Wrap stores the existing error as the cause
as-is, so unwrap of the result always yields it, and the wrapped error is
matched by the result whenever its dynamic type is comparable — an
ErrorList operand is the exception. -/
theorem c5_wrap_preserves_cause :
    ∀ err message details loc,
      Wrap (some err) message details loc =
        .errkit (.base message) (some err) (ToErrorDetails details) loc ∧
      Unwrap (some (Wrap (some err) message details loc)) = some err ∧
      (goComparable err = true →
         Is (some (Wrap (some err) message details loc)) (some err) = true) := by
  intro err message details loc
  refine ⟨rfl, rfl, ?_⟩
  intro h
  show goIsRec (.errkit (.base message) (some err) (ToErrorDetails details) loc) err = true
  unfold goIsRec
  simp [goIsRec_self err h]

/-- Witness for C5 at a concrete plain error. -/
theorem c5_wrap_preserves_cause_witness :
    Is (some (Wrap (some (.base "cause")) "context" [] ⟨"h", "h.go:4", 4⟩))
      (some (.base "cause")) = true :=
  (c5_wrap_preserves_cause (.base "cause") "context" [] ⟨"h", "h.go:4", 4⟩).2.2 rfl

theorem string_length_eq_zero_iff (s : String) : s.length = 0 ↔ s = "" := by
  rw [show s.length = s.data.length from rfl]
  constructor
  · intro h
    have hd : s.data = [] := List.length_eq_zero.mp h
    cases s
    simp_all
  · intro h
    subst h
    rfl

theorem append_ne_empty_left (s t : String) (h : s ≠ "") : s ++ t ≠ "" := by
  intro he
  apply h
  have hlen := congrArg String.length he
  rw [String.length_append] at hlen
  simp at hlen
  exact (string_length_eq_zero_iff s).mp hlen.1

/-- The plain text form of an error is nonempty whenever its message is. -/
theorem errText_ne_empty (e : GoErr) (h : goMessage e ≠ "") : errText e ≠ "" := by
  cases e with
  | base m => exact h
  | errkit inner cause details loc =>
    have hin : errText inner ≠ "" := h
    cases cause with
    | none => exact hin
    | some c =>
      show errText inner ++ ": " ++ errText c ≠ ""
      exact append_ne_empty_left _ _ (append_ne_empty_left _ _ hin)
  | list es =>
    show "[" ++ String.intercalate "," (errTextList es) ++ "]" ≠ ""
    rw [String.append_assoc]
    exact append_ne_empty_left _ _ (by decide)

/-- The top-level JSON value of a marshalled error is an object, except for
the empty ErrorList, which marshals to null. -/
theorem marshalErr_shape (e : GoErr) (j : Json) (h : marshalErr e = .ok j) :
    (∃ fs, j = .obj fs) ∨ j = .null := by
  cases e with
  | base m =>
    simp only [marshalErr] at h
    cases h
    exact Or.inl ⟨_, rfl⟩
  | errkit inner cause details loc =>
    unfold marshalErr at h
    cases hd : marshalValMap details with
    | error er =>
      simp only [hd] at h
      exact Except.noConfusion h
    | ok ds =>
      simp only [hd] at h
      cases cause with
      | none =>
        simp only at h
        cases h
        exact Or.inl ⟨_, rfl⟩
      | some c =>
        simp only at h
        cases hc : marshalErr c with
        | error er =>
          simp only [hc] at h
          exact Except.noConfusion h
        | ok cj =>
          simp only [hc] at h
          cases h
          exact Or.inl ⟨_, rfl⟩
  | list es =>
    unfold marshalErr at h
    cases es with
    | nil =>
      simp only at h
      cases h
      exact Or.inr rfl
    | cons a rest =>
      simp only at h
      cases hm : marshalMembers (a :: rest) with
      | error er =>
        simp only [hm] at h
        exact Except.noConfusion h
      | ok js =>
        simp only [hm] at h
        cases h
        exact Or.inl ⟨_, rfl⟩

/-- C9 (confirmed): producing the string form of an error is total in the
model (every function below is total); the plain text form of the
errkitError generation is nonempty whenever the message is nonempty; the
JSON-based string form of the kerrors generation is never empty at all;
and when JSON encoding fails the string falls back to the plain-text
rendering of the whole value instead of propagating the failure. -/
theorem c9_error_string_total :
    (∀ e : GoErr, goMessage e ≠ "" → errText e ≠ "") ∧
    (∀ e : GoErr, kerrErrorString e ≠ "") ∧
    (∀ e msg, marshalErr e = .error msg → kerrErrorString e = fallbackRender e) := by
  refine ⟨errText_ne_empty, ?_, ?_⟩
  · intro e
    unfold kerrErrorString
    cases h : marshalErr e with
    | ok j =>
      rcases marshalErr_shape e j h with ⟨fs, rfl⟩ | rfl
      · show "\x7b" ++ String.intercalate "," (renderJsonFields fs) ++ "\x7d" ≠ ""
        rw [String.append_assoc]
        exact append_ne_empty_left _ _ (by decide)
      · show "null" ≠ ""
        decide
    | error msg =>
      show "errkit.Error\x7b" ++ errText e ++ "\x7d" ≠ ""
      rw [String.append_assoc]
      exact append_ne_empty_left _ _ (by decide)
  · intro e msg h
    unfold kerrErrorString
    rw [h]

/-- Witness for C9 at a concrete error with a nonempty message and at a
concrete error whose details hold an unsupported value, exercising the
fallback. -/
theorem c9_error_string_total_witness :
    errText (.errkit (.base "m") none [] ⟨"f", "f.go:1", 1⟩) ≠ "" ∧
    kerrErrorString (.errkit (.base "m") none
        [("k", .unserializable "chan int")] ⟨"f", "f.go:1", 1⟩) =
      fallbackRender (.errkit (.base "m") none
        [("k", .unserializable "chan int")] ⟨"f", "f.go:1", 1⟩) :=
  ⟨c9_error_string_total.1 (.errkit (.base "m") none [] ⟨"f", "f.go:1", 1⟩)
      (by decide),
   c9_error_string_total.2.2 (.errkit (.base "m") none
      [("k", .unserializable "chan int")] ⟨"f", "f.go:1", 1⟩)
      "json: unsupported type: chan int" rfl⟩

theorem lookup_maybeField_self {l : List (String × Json)} (k : String) (o : Option Json) :
    lookupKey (maybeField k o ++ l) k =
      match o with
      | some j => some j
      | none => lookupKey l k := by
  cases o <;> simp [maybeField, lookupKey]

theorem lookup_maybeField_ne {l : List (String × Json)} {k k1 : String} (o : Option Json)
    (h : k ≠ k1) :
    lookupKey (maybeField k1 o ++ l) k = lookupKey l k := by
  cases o <;> simp [maybeField, lookupKey, h]

theorem lookup_none_of_keys {α : Type} :
    ∀ (l : List (String × α)) (k : String), (∀ p ∈ l, p.1 ≠ k) → lookupKey l k = none := by
  intro l
  induction l with
  | nil => intro k _; rfl
  | cons p rest ih =>
    intro k h
    obtain ⟨k1, v1⟩ := p
    have h1 : k1 ≠ k := h (k1, v1) (by simp)
    unfold lookupKey
    rw [if_neg (fun he => h1 he.symm)]
    exact ih k fun q hq => h q (by simp [hq])

/-- Field extraction from a marshalled errkitError object: every struct
field decodes back, and the cause field is found exactly in the trailing
part. -/
theorem getters_errFields (m : String) (loc : Location) (ds : List (String × Json))
    (rest : List (String × Json)) (hrest : ∀ p ∈ rest, p.1 = "cause") :
    getStrField (errFields m loc ds ++ rest) "message" = .ok m ∧
    getStrField (errFields m loc ds ++ rest) "function" = .ok loc.function ∧
    getNumField (errFields m loc ds ++ rest) "linenumber" = .ok loc.line ∧
    getStrField (errFields m loc ds ++ rest) "file" = .ok loc.file ∧
    getDetailsField (errFields m loc ds ++ rest) "details" =
      .ok (mapOfPairs (decodeAnyMap ds)) ∧
    lookupKey (errFields m loc ds ++ rest) "cause" = lookupKey rest "cause" := by
  unfold errFields omitStr omitNum omitObjField
  simp only [List.append_assoc]
  refine ⟨?_, ?_, ?_, ?_, ?_, ?_⟩
  · unfold getStrField
    rw [lookup_maybeField_self]
    by_cases hm : m = ""
    · rw [if_pos hm]
      rw [lookup_maybeField_ne _ (by decide), lookup_maybeField_ne _ (by decide),
        lookup_maybeField_ne _ (by decide), lookup_maybeField_ne _ (by decide)]
      rw [lookup_none_of_keys rest "message" (fun p hp => by rw [hrest p hp]; decide)]
      rw [hm]
    · rw [if_neg hm]
  · unfold getStrField
    rw [lookup_maybeField_ne _ (by decide), lookup_maybeField_self]
    by_cases hf : loc.function = ""
    · rw [if_pos hf]
      rw [lookup_maybeField_ne _ (by decide), lookup_maybeField_ne _ (by decide),
        lookup_maybeField_ne _ (by decide)]
      rw [lookup_none_of_keys rest "function" (fun p hp => by rw [hrest p hp]; decide)]
      rw [hf]
    · rw [if_neg hf]
  · unfold getNumField
    rw [lookup_maybeField_ne _ (by decide), lookup_maybeField_ne _ (by decide),
      lookup_maybeField_self]
    by_cases hn : loc.line = 0
    · rw [if_pos hn]
      rw [lookup_maybeField_ne _ (by decide), lookup_maybeField_ne _ (by decide)]
      rw [lookup_none_of_keys rest "linenumber" (fun p hp => by rw [hrest p hp]; decide)]
      rw [hn]
    · rw [if_neg hn]
  · unfold getStrField
    rw [lookup_maybeField_ne _ (by decide), lookup_maybeField_ne _ (by decide),
      lookup_maybeField_ne _ (by decide), lookup_maybeField_self]
    by_cases hf : loc.file = ""
    · rw [if_pos hf]
      rw [lookup_maybeField_ne _ (by decide)]
      rw [lookup_none_of_keys rest "file" (fun p hp => by rw [hrest p hp]; decide)]
      rw [hf]
    · rw [if_neg hf]
  · unfold getDetailsField
    rw [lookup_maybeField_ne _ (by decide), lookup_maybeField_ne _ (by decide),
      lookup_maybeField_ne _ (by decide), lookup_maybeField_ne _ (by decide),
      lookup_maybeField_self]
    by_cases hd : ds.isEmpty
    · rw [if_pos hd]
      rw [lookup_none_of_keys rest "details" (fun p hp => by rw [hrest p hp]; decide)]
      have : ds = [] := by
        cases ds with
        | nil => rfl
        | cons a l => simp [List.isEmpty] at hd
      subst this
      rfl
    · rw [if_neg hd]
  · rw [lookup_maybeField_ne _ (by decide), lookup_maybeField_ne _ (by decide),
      lookup_maybeField_ne _ (by decide), lookup_maybeField_ne _ (by decide),
      lookup_maybeField_ne _ (by decide)]

mutual

theorem valRT : ∀ (v : GoVal), valWF v = true →
    ∀ jv, marshalGoVal v = .ok jv → decodeAny jv = v
  | .str s => by
    intro _ jv h
    cases h
    rfl
  | .int n => by
    intro _ jv h
    cases h
    rfl
  | .boolV b => by
    intro _ jv h
    cases h
    rfl
  | .nullV => by
    intro _ jv h
    cases h
    rfl
  | .arrV xs => by
    intro hwf jv h
    unfold marshalGoVal at h
    cases hl : marshalValList xs with
    | error er =>
      simp only [hl] at h
      exact Except.noConfusion h
    | ok js =>
      simp only [hl] at h
      cases h
      have hx : valListWF xs = true := by
        unfold valWF at hwf
        exact hwf
      show GoVal.arrV (decodeAnyList js) = GoVal.arrV xs
      rw [valListRT xs hx js hl]
  | .dmap d => by
    intro hwf jv h
    unfold marshalGoVal at h
    cases hl : marshalValMap d with
    | error er =>
      simp only [hl] at h
      exact Except.noConfusion h
    | ok fs =>
      simp only [hl] at h
      cases h
      unfold valWF at hwf
      rw [Bool.and_eq_true, decide_eq_true_eq] at hwf
      show GoVal.dmap (mapOfPairs (decodeAnyMap fs)) = GoVal.dmap d
      rw [valMapRT d hwf.2 fs hl, mapOfPairs_of_nodup d hwf.1]
  | .unserializable desc => by
    intro _ jv h
    exact Except.noConfusion h

theorem valListRT : ∀ (xs : List GoVal), valListWF xs = true →
    ∀ js, marshalValList xs = .ok js → decodeAnyList js = xs
  | [] => by
    intro _ js h
    cases h
    rfl
  | x :: xs => by
    intro hwf js h
    unfold valListWF at hwf
    rw [Bool.and_eq_true] at hwf
    unfold marshalValList at h
    cases hx : marshalGoVal x with
    | error er =>
      simp only [hx] at h
      exact Except.noConfusion h
    | ok j =>
      cases hl : marshalValList xs with
      | error er =>
        simp only [hx, hl] at h
        exact Except.noConfusion h
      | ok js0 =>
        simp only [hx, hl] at h
        cases h
        show decodeAny j :: decodeAnyList js0 = x :: xs
        rw [valRT x hwf.1 j hx, valListRT xs hwf.2 js0 hl]

theorem valMapRT : ∀ (d : List (String × GoVal)), valMapWF d = true →
    ∀ fs, marshalValMap d = .ok fs → decodeAnyMap fs = d
  | [] => by
    intro _ fs h
    cases h
    rfl
  | (k, v) :: rest => by
    intro hwf fs h
    unfold valMapWF at hwf
    rw [Bool.and_eq_true] at hwf
    unfold marshalValMap at h
    cases hv : marshalGoVal v with
    | error er =>
      simp only [hv] at h
      exact Except.noConfusion h
    | ok j =>
      cases hl : marshalValMap rest with
      | error er =>
        simp only [hv, hl] at h
        exact Except.noConfusion h
      | ok fs0 =>
        simp only [hv, hl] at h
        cases h
        show (k, decodeAny j) :: decodeAnyMap fs0 = (k, v) :: rest
        rw [valRT v hwf.1 j hv, valMapRT rest hwf.2 fs0 hl]

end

theorem causeFromFields_nil : causeFromFields [] = .noCause := by
  rfl

theorem causeFromFields_skip (k : String) (v : Json) (rest : List (String × Json))
    (h : k ≠ "cause") :
    causeFromFields ((k, v) :: rest) = causeFromFields rest := by
  conv_lhs => unfold causeFromFields
  rw [if_neg h]

theorem causeFromFields_skipBlock (k : String) (o : Option Json)
    (l : List (String × Json)) (h : k ≠ "cause") :
    causeFromFields (maybeField k o ++ l) = causeFromFields l := by
  cases o with
  | none => rfl
  | some j => exact causeFromFields_skip k j l h

theorem causeFromFields_errFields (m : String) (loc : Location)
    (ds : List (String × Json)) (l : List (String × Json)) :
    causeFromFields (errFields m loc ds ++ l) = causeFromFields l := by
  unfold errFields omitStr omitNum omitObjField
  simp only [List.append_assoc]
  rw [causeFromFields_skipBlock _ _ _ (by decide),
    causeFromFields_skipBlock _ _ _ (by decide),
    causeFromFields_skipBlock _ _ _ (by decide),
    causeFromFields_skipBlock _ _ _ (by decide),
    causeFromFields_skipBlock _ _ _ (by decide)]

theorem causeFromFields_cause (cj : Json) (rest : List (String × Json)) :
    causeFromFields (("cause", cj) :: rest) =
      match cj with
      | .null => .nestedNull
      | c =>
        match decodeJsonError c with
        | .ok d => .nested d
        | .error _ => .rawAny (decodeAny c) := by
  unfold causeFromFields
  rw [if_pos rfl]

/-- Decoding a marshalled plain-error leaf object recovers its message and
nothing else. -/
theorem decode_leaf (m : String) :
    decodeJsonError (.obj (omitStr "message" m)) = .ok (mirrorLeaf m) := by
  unfold decodeJsonError
  by_cases hm : m = ""
  · subst hm
    simp [omitStr, maybeField, getStrField, getNumField, getDetailsField, lookupKey,
      mirrorLeaf, causeFromFields_nil]
  · have hskip : causeFromFields [("message", Json.str m)] = JCause.noCause := by
      rw [causeFromFields_skip "message" (Json.str m) [] (by decide), causeFromFields_nil]
    simp [omitStr, maybeField, hm, getStrField, getNumField, getDetailsField, lookupKey,
      mirrorLeaf, hskip]

/-- Decoding a marshalled nonempty ErrorList object recovers only its
aggregate message; the errors array is an unknown field to the decoder
and is ignored. -/
theorem decode_listObj (M : String) (js : List Json) :
    decodeJsonError (.obj [("message", .str M), ("errors", .arr js)]) =
      .ok (mirrorLeaf M) := by
  unfold decodeJsonError
  have hskip : causeFromFields [("message", Json.str M), ("errors", Json.arr js)] =
      JCause.noCause := by
    rw [causeFromFields_skip "message" (Json.str M) _ (by decide),
      causeFromFields_skip "errors" (Json.arr js) [] (by decide), causeFromFields_nil]
  simp [getStrField, getNumField, getDetailsField, lookupKey, mirrorLeaf, hskip]

/-- The encoding of an errkitError is always a JSON object. -/
theorem marshalErr_errkit_obj (inner : GoErr) (cause : Option GoErr)
    (details : List (String × GoVal)) (loc : Location) (j : Json)
    (h : marshalErr (.errkit inner cause details loc) = .ok j) :
    ∃ fs, j = .obj fs := by
  unfold marshalErr at h
  cases hd : marshalValMap details with
  | error er =>
    simp only [hd] at h
    exact Except.noConfusion h
  | ok ds =>
    simp only [hd] at h
    cases cause with
    | none =>
      simp only at h
      cases h
      exact ⟨_, rfl⟩
    | some c =>
      simp only at h
      cases hc : marshalErr c with
      | error er =>
        simp only [hc] at h
        exact Except.noConfusion h
      | ok cj =>
        simp only [hc] at h
        cases h
        exact ⟨_, rfl⟩

/-- Round trip along the cause chain: decoding the JSON encoding of a
non-list error value yields its mirror, recovering message, location
fields, details and the cause message at every depth. -/
theorem roundTripChain : ∀ (e : GoErr), chainWF e = true → isList e = false →
    ∀ j, marshalErr e = .ok j → decodeJsonError j = .ok (mirrorErr e)
  | .base m => by
    intro _ _ j h
    simp only [marshalErr] at h
    cases h
    simpa [mirrorErr] using decode_leaf m
  | .errkit inner cause details loc => by
    intro hwf _ j h
    unfold chainWF at hwf
    rw [Bool.and_eq_true, Bool.and_eq_true, decide_eq_true_eq] at hwf
    unfold marshalErr at h
    cases hd : marshalValMap details with
    | error er =>
      simp only [hd] at h
      exact Except.noConfusion h
    | ok ds =>
      simp only [hd] at h
      have hdet : mapOfPairs (decodeAnyMap ds) = details := by
        rw [valMapRT details hwf.1.2 ds hd, mapOfPairs_of_nodup details hwf.1.1]
      cases cause with
      | none =>
        simp only at h
        cases h
        rw [show Json.obj (errFields (errText inner) loc ds) =
            Json.obj (errFields (errText inner) loc ds ++ []) by rw [List.append_nil]]
        obtain ⟨g1, g2, g3, g4, g5, _⟩ :=
          getters_errFields (errText inner) loc ds [] (by simp)
        unfold decodeJsonError
        simp only [g1, g2, g3, g4, g5, hdet, causeFromFields_errFields,
          causeFromFields_nil]
        simp [mirrorErr, mirrorCause]
      | some c =>
        simp only at h
        cases hc : marshalErr c with
        | error er =>
          simp only [hc] at h
          exact Except.noConfusion h
        | ok cj =>
          simp only [hc] at h
          cases h
          obtain ⟨g1, g2, g3, g4, g5, _⟩ :=
            getters_errFields (errText inner) loc ds [("cause", cj)] (by simp)
          unfold decodeJsonError
          simp only [g1, g2, g3, g4, g5, hdet, causeFromFields_errFields,
            causeFromFields_cause]
          have hcwf : chainWF c = true := hwf.2
          cases c with
          | base mc =>
            simp only [marshalErr] at hc
            cases hc
            simp only [decode_leaf mc]
            simp [mirrorErr, mirrorCause]
          | errkit ci cc cd cl =>
            have hdec := roundTripChain (.errkit ci cc cd cl) hcwf rfl cj hc
            obtain ⟨fs2, rfl⟩ := marshalErr_errkit_obj ci cc cd cl cj hc
            simp only [hdec]
            simp [mirrorErr, mirrorCause]
          | list es =>
            cases es with
            | nil =>
              simp only [marshalErr] at hc
              cases hc
              simp [mirrorErr, mirrorCause]
            | cons a rest2 =>
              unfold marshalErr at hc
              simp only at hc
              cases hm : marshalMembers (a :: rest2) with
              | error er =>
                simp only [hm] at hc
                exact Except.noConfusion hc
              | ok js =>
                simp only [hm] at hc
                cases hc
                simp only [decode_listObj]
                simp [mirrorErr, mirrorCause]
  | .list es => by
    intro _ hl
    simp [isList] at hl

/-- C4 (confirmed): round trip at the data level.  Encoding any non-list
error value whose cause chain is well formed and decoding the result
recovers the mirror: message, location fields (function, file,
linenumber), details, and the cause message at every depth; and the
decoder attempts the cause first as a nested object of the same shape,
falling back to an opaque any-decoded JSON value only when that parse
fails, as witnessed by a string-valued cause. -/
theorem c4_json_roundtrip :
    (∀ e j, chainWF e = true → isList e = false → marshalErr e = .ok j →
       decodeJsonError j = .ok (mirrorErr e)) ∧
    decodeJsonError (.obj [("message", .str "m"), ("cause", .str "boom")]) =
      .ok (.mk "m" "" "" 0 [] (.rawAny (.str "boom"))) := by
  constructor
  · exact fun e j hwf hl h => roundTripChain e hwf hl j h
  · have hb : decodeJsonError (Json.str "boom") =
        .error "json: cannot unmarshal value into jsonError" := by rfl
    have hcf : causeFromFields [("message", Json.str "m"), ("cause", Json.str "boom")] =
        JCause.rawAny (.str "boom") := by
      rw [causeFromFields_skip "message" (Json.str "m") _ (by decide),
        causeFromFields_cause]
      simp [hb, decodeAny]
    unfold decodeJsonError
    simp [getStrField, getNumField, getDetailsField, lookupKey, hcf]

/-- Witness for C4 at a concrete two-level causal error with details. -/
theorem c4_json_roundtrip_witness :
    decodeJsonError
      (.obj [("message", .str "top"), ("function", .str "f"),
             ("linenumber", .num 1), ("file", .str "f.go:1"),
             ("details", .obj [("a", .str "x")]),
             ("cause", .obj [("message", .str "mid"), ("function", .str "g"),
                             ("linenumber", .num 2), ("file", .str "g.go:2"),
                             ("details", .obj [("k", .num 1)]),
                             ("cause", .obj [("message", .str "leaf")])])]) =
      .ok (.mk "top" "f" "f.go:1" 1 [("a", .str "x")]
        (.nested (.mk "mid" "g" "g.go:2" 2 [("k", .int 1)]
          (.nested (.mk "leaf" "" "" 0 [] .noCause))))) :=
  c4_json_roundtrip.1
    (.errkit (.base "top")
      (some (.errkit (.base "mid") (some (.base "leaf")) [("k", .int 1)]
        ⟨"g", "g.go:2", 2⟩))
      [("a", .str "x")] ⟨"f", "f.go:1", 1⟩)
    _ (by decide) rfl rfl

end Errkit
